import Mathlib

/-!
Verification of the TinySpeech pipeline (src/tinyspeech/pipeline.py and
src/tinyspeech/app.py).

Embedding conventions:
* Python strings are modelled as `List Char`; Python `str.strip` / `str.split`
  are modelled by `pystrip` / `pysplit` (split on whitespace runs, dropping
  empty pieces, as `split()` with no argument does).
* Times (Python floats) are modelled as exact rationals `ℚ`; every timestamp
  appearing in the claims is exactly representable in binary floating point,
  so the idealization is faithful on all inputs considered.
* The two external collaborators (the Whisper transcriber and the Gemini
  summarization call) and the two wall-clock reads are modelled as an explicit
  environment `PipelineEnv`; a collaborator that raises is modelled as
  returning `none`.
* The filesystem is modelled as an association list of (path, contents)
  pairs, threaded through the orchestrator and the UI handler.
-/

/-- Model of Python `str.strip()`: remove leading and trailing whitespace. -/
def pystrip (l : List Char) : List Char :=
  ((l.dropWhile Char.isWhitespace).reverse.dropWhile Char.isWhitespace).reverse

/-- Accumulator worker for `pysplit`; `acc` holds the current word reversed. -/
def pysplitGo : List Char → List Char → List (List Char)
  | [], acc => if acc.isEmpty then [] else [acc.reverse]
  | c :: cs, acc =>
    if c.isWhitespace then
      if acc.isEmpty then pysplitGo cs [] else acc.reverse :: pysplitGo cs []
    else pysplitGo cs (c :: acc)

/-- Model of Python `str.split()` with no arguments: split on runs of
whitespace, never producing empty words. -/
def pysplit (l : List Char) : List (List Char) :=
  pysplitGo l []

/-- Title construction from pipeline.py lines 76-77:
`words = chapter_text.strip().split()[:6]` and
`title = " ".join(words) + ("..." if len(words) == 6 else "")`. -/
def mkTitle (chapter_text : List Char) : List Char :=
  let words := (pysplit (pystrip chapter_text)).take 6
  List.intercalate [' '] words ++ (if words.length = 6 then "...".toList else [])

/-- A transcript segment as produced by `transcribe_audio`:
`{start, end, text}` (the `end` key is rendered `end_` because `end` is a
reserved word). -/
structure Segment where
  start : ℚ
  end_ : ℚ
  text : List Char
deriving DecidableEq, Repr

/-- A chapter as produced by `generate_chapters`:
`{start_time, end_time, title, text}`. -/
structure Chapter where
  start_time : ℚ
  end_time : ℚ
  title : List Char
  text : List Char
deriving DecidableEq, Repr

/-- The `for i, segment in enumerate(segments)` loop of `generate_chapters`
(pipeline.py lines 68-87).  Arguments track the loop state: remaining
segments, `current_chapter_start`, `chapter_text`, and `len(chapters)`
(the number of chapters emitted so far).  The test `i == len(segments) - 1`
is the test that the current segment is the final one, i.e. `rest = []`. -/
def chaptersLoop (chapter_duration : ℚ) (max_chapters : ℕ) :
    List Segment → ℚ → List Char → ℕ → List Chapter
  | [], _, _, _ => []
  | seg :: rest, current_chapter_start, chapter_text, emitted =>
    let chapter_text2 := chapter_text ++ seg.text ++ [' ']
    if (current_chapter_start + chapter_duration ≤ seg.end_ ∧
          emitted < max_chapters - 1) ∨ rest = [] then
      ⟨current_chapter_start, seg.end_, mkTitle chapter_text2, pystrip chapter_text2⟩ ::
        chaptersLoop chapter_duration max_chapters rest seg.end_ [] (emitted + 1)
    else
      chaptersLoop chapter_duration max_chapters rest current_chapter_start chapter_text2 emitted

/-- `generate_chapters(segments, max_chapters=8)` from pipeline.py lines
55-89.  The empty case returns `[]`; otherwise
`chapter_duration = segments[-1]["end"] / max_chapters` and the enumeration
loop runs starting from `current_chapter_start = 0` with an empty text
buffer and no chapters emitted. -/
def generate_chapters (segments : List Segment) (max_chapters : ℕ) : List Chapter :=
  match segments with
  | [] => []
  | seg :: rest =>
    let total_duration := ((seg :: rest).getLast (List.cons_ne_nil seg rest)).end_
    let chapter_duration := total_duration / (max_chapters : ℚ)
    chaptersLoop chapter_duration max_chapters (seg :: rest) 0 [] 0

/-- Python `"{n:02d}"` for a non-negative integer: left-pad the decimal
digits with `0` to width two.  (Negative values never reach this point in
any claim; the spec declares behaviour on negative timestamps undefined.) -/
def pad02 (n : ℤ) : List Char :=
  if n < 10 then '0' :: Nat.toDigits 10 n.toNat else Nat.toDigits 10 n.toNat

/-- Python float modulo `a % b` for positive `b`: `a - b * floor(a / b)`. -/
def pymod (a b : ℚ) : ℚ :=
  a - b * ⌊a / b⌋

/-- `format_timestamp(seconds)` from pipeline.py lines 129-133:
`minutes = int(seconds // 60)`, `seconds = int(seconds % 60)`,
result `f"{minutes:02d}:{seconds:02d}"`.  Python `//` on floats is floor
division and `int(...)` of its non-negative operands truncates, which is
`Int.floor` here. -/
def format_timestamp (seconds : ℚ) : List Char :=
  let minutes : ℤ := ⌊seconds / 60⌋
  let secs : ℤ := ⌊pymod seconds 60⌋
  pad02 minutes ++ ':' :: pad02 secs

/-- Modelled from the wording of the spec (section 4.2, "Time formatting
rule"): `format(seconds) = "{minutes:02d}:{seconds:02d}"` with
`minutes = floor(seconds/60)` and `seconds = floor(seconds) mod 60`.
Used as the comparison point for claim C4. -/
def format_timestamp_fromSpec (seconds : ℚ) : List Char :=
  pad02 ⌊seconds / 60⌋ ++ ':' :: pad02 (⌊seconds⌋ % 60)

/-- The environment of external collaborators and ambient state:
`transcribe` models `load_whisper_model` + `transcribe_audio` (a raising
call is `none`), `llm` models the Gemini `generate_content` call on the
built prompt (a raising call is `none`), `now` is
`datetime.now().strftime("%Y-%m-%d %H:%M:%S")`, `file_timestamp` is
`datetime.now().strftime("%Y%m%d_%H%M%S")`, and `temp_dir` is the directory
returned by `tempfile.mkdtemp()` in app.py. -/
structure PipelineEnv where
  transcribe : List Char → Option (List Char × List Segment)
  llm : List Char → Option (List Char)
  now : List Char
  file_timestamp : List Char
  temp_dir : List Char

/-- The prompt built by `generate_summary` (pipeline.py lines 95-118). -/
def summaryPrompt (transcript : List Char) : List Char :=
  "\nPlease analyze this audio transcript and provide:\n\n1. A concise summary (2-3 paragraphs) of the main content\n2. Key points or takeaways (3-5 bullet points)\n3. Main topics discussed\n\nTranscript:\n".toList
    ++ transcript
    ++ "\n\nPlease format your response as:\n## Summary\n[Your summary here]\n\n## Key Points\n- [Point 1]\n- [Point 2]\n- [Point 3]\n\n## Main Topics\n- [Topic 1]\n- [Topic 2]\n- [Topic 3]\n".toList

/-- The fixed fallback text returned by the `except` branch of
`generate_summary` (pipeline.py line 127). -/
def fallbackSummary : List Char :=
  "Summary generation failed. Please check your Gemini API key.".toList

/-- `generate_summary(transcript)` from pipeline.py lines 91-127: call the
Gemini collaborator on the built prompt; on failure substitute the fixed
fallback text. -/
def generate_summary (env : PipelineEnv) (transcript : List Char) : List Char :=
  match env.llm (summaryPrompt transcript) with
  | some response => response
  | none => fallbackSummary

/-- One chapter-index heading of the report (pipeline.py line 159):
`f"### {i}. {title} ({start} - {end})\n\n"`. -/
def chapterHeading (i : ℕ) (c : Chapter) : List Char :=
  "### ".toList ++ Nat.toDigits 10 i ++ ". ".toList ++ c.title
    ++ " (".toList ++ format_timestamp c.start_time
    ++ " - ".toList ++ format_timestamp c.end_time ++ ")".toList
    ++ "\n\n".toList

/-- The `for i, chapter in enumerate(chapters, 1)` loop of
`create_markdown_report` (pipeline.py lines 156-159). -/
def chapterIndexFrom : ℕ → List Chapter → List Char
  | _, [] => []
  | i, c :: rest => chapterHeading i c ++ chapterIndexFrom (i + 1) rest

/-- The transcript-body loop of `create_markdown_report` (pipeline.py lines
164-172): it walks the chapter list, inserting a bold `[MM:SS]` marker
whenever `int(start_time // 60)` differs from the minute of the previous
marker (initially `-1`), then appending the chapter text and a space.
After each iteration the tracked minute equals `segment_minute` whether or
not the marker fired, so the recursion passes `segment_minute` on. -/
def transcriptBody : ℤ → List Chapter → List Char
  | _, [] => []
  | current_minute, c :: rest =>
    let segment_minute : ℤ := ⌊c.start_time / 60⌋
    (if segment_minute ≠ current_minute then
      "\n**[".toList ++ format_timestamp c.start_time ++ "]** ".toList
     else [])
      ++ c.text ++ [' ']
      ++ transcriptBody segment_minute rest

/-- `create_markdown_report(transcript, summary, chapters, audio_filename)`
from pipeline.py lines 135-174.  `timestamp` is the formatted
`datetime.now()` value, passed explicitly.  The duration field uses the
last chapter if any, else the literal `Unknown`. -/
def create_markdown_report (transcript summary : List Char) (chapters : List Chapter)
    (audio_filename : List Char) (timestamp : List Char) : List Char :=
  "# TinySpeech Report: ".toList ++ audio_filename
    ++ "\n\n**Generated:** ".toList ++ timestamp
    ++ "  \n**Source:** ".toList ++ audio_filename
    ++ "  \n**Duration:** ".toList
    ++ (match chapters.getLast? with
        | some c => format_timestamp c.end_time
        | none => "Unknown".toList)
    ++ "\n\n---\n\n".toList ++ summary
    ++ "\n\n---\n\n## 📚 Chapters\n\n".toList
    ++ chapterIndexFrom 1 chapters
    ++ "\n---\n\n## 📝 Full Transcript\n\n".toList
    ++ transcriptBody (-1) chapters

/-- The filesystem: a list of (path, contents) pairs. -/
abbrev FS := List (List Char × List Char)

/-- The set of paths that exist, as tested by `os.path.exists`. -/
def fsPaths (fs : FS) : List (List Char) :=
  fs.map Prod.fst

/-- Read a file back (`open(path).read()`); `none` when the path is absent. -/
def readFile (fs : FS) (p : List Char) : Option (List Char) :=
  (fs.find? (fun e => e.1 == p)).map Prod.snd

/-- `os.path.basename`: the part after the final slash. -/
def pyBasename (p : List Char) : List Char :=
  (p.reverse.takeWhile (fun c => c ≠ '/')).reverse

/-- `os.path.splitext(name)[0]`: everything before the final dot, or the
whole name when it has no dot.  (The dotfile corner case of `splitext` is
not modelled; no claim touches it.) -/
def splitextBase (name : List Char) : List Char :=
  if '.' ∈ name then ((name.reverse.dropWhile (fun c => c ≠ '.')).drop 1).reverse
  else name

/-- `os.path.splitext(name)[1]`: the final-dot extension including the dot,
or empty when the name has no dot. -/
def extOf (name : List Char) : List Char :=
  if '.' ∈ name then '.' :: (name.reverse.takeWhile (fun c => c ≠ '.')).reverse
  else []

/-- The output directory `os.path.join(os.path.dirname(__file__), "outputs")`
of `process_audio`, as an abstract constant prefix. -/
def outputsDir : List Char :=
  "outputs/".toList

/-- `process_audio(audio_path)` from pipeline.py lines 176-224.  A missing
input file returns `None` before the `try` block; any collaborator failure
inside the `try` block is caught and also returns `None`; on success the
report is written to `outputs/{base_name}_{timestamp}.md` and that path is
returned.  The result pairs the returned value with the final filesystem. -/
def process_audio (env : PipelineEnv) (fs : FS) (audio_path : List Char) :
    Option (List Char) × FS :=
  if audio_path ∈ fsPaths fs then
    match env.transcribe audio_path with
    | none => (none, fs)
    | some (transcript, segments) =>
      let chapters := generate_chapters segments 8
      let summary := generate_summary env transcript
      let audio_filename := pyBasename audio_path
      let report := create_markdown_report transcript summary chapters audio_filename env.now
      let base_name := splitextBase audio_filename
      let output_path := outputsDir ++ base_name ++ '_' :: env.file_timestamp ++ ".md".toList
      (some output_path, (output_path, report) :: fs)
  else (none, fs)

/-- Status message of app.py line 16. -/
def uploadErrorMsg : List Char :=
  "❌ Please upload an audio file first.".toList

/-- Status message of app.py line 40. -/
def processFailedMsg : List Char :=
  "❌ Processing failed. Please check your audio file and try again.".toList

/-- Status message of app.py line 37. -/
def processSuccessMsg : List Char :=
  "✅ Processing complete! Report generated successfully.".toList

/-- Prefix of the status message of app.py line 43 (the exception text that
follows it is not modelled). -/
def copyErrorMsgPrefix : List Char :=
  "❌ Error processing audio: ".toList

/-- `process_audio_file(audio_file)` from app.py lines 11-45, with the
upload modelled as an optional source path.  A `None` upload returns the
error triple immediately; otherwise the upload is copied to a temp path,
the pipeline runs on it, and on success the generated report is read back.
A failing copy (source unreadable) lands in the generic `except` branch.
The temp-directory cleanup is omitted (no claim observes it). -/
def process_audio_file (env : PipelineEnv) (fs : FS) (audio_file : Option (List Char)) :
    (Option (List Char) × List Char × List Char) × FS :=
  match audio_file with
  | none => ((none, uploadErrorMsg, []), fs)
  | some name =>
    match readFile fs name with
    | none => ((none, copyErrorMsgPrefix, []), fs)
    | some content =>
      let temp_audio_path := env.temp_dir ++ "uploaded_audio".toList ++ extOf name
      let fs1 : FS := (temp_audio_path, content) :: fs
      let pr := process_audio env fs1 temp_audio_path
      match pr.1 with
      | some output_path =>
        match readFile pr.2 output_path with
        | some report => ((some output_path, processSuccessMsg, report), pr.2)
        | none => ((none, processFailedMsg, []), pr.2)
      | none => ((none, processFailedMsg, []), pr.2)

/-- The text buffer a run of segments contributes to a chapter before
stripping: each segment text followed by one space. -/
def bufOf (b : List Segment) : List Char :=
  (b.map (fun s => s.text ++ [' '])).flatten

/-- A well-formed segment sequence as described by the data model of the
spec: ordered by time with no overlaps, every segment spanning a
non-negative time range starting at or after zero. -/
def SegsOrdered (segs : List Segment) : Prop :=
  List.Chain' (fun a b => a.end_ ≤ b.start) segs ∧
    ∀ s ∈ segs, 0 ≤ s.start ∧ s.start ≤ s.end_

/-- A stub environment whose collaborators all fail; used to instantiate
hypotheses at a concrete point. -/
def stubEnvFail : PipelineEnv :=
  ⟨fun _ => none, fun _ => none, [], [], []⟩

/-- A stub environment whose transcriber succeeds with one fixed segment
and whose summarizer fails; used to instantiate hypotheses at a concrete
point. -/
def stubEnvHalf : PipelineEnv :=
  ⟨fun _ => some ("hi".toList, [⟨0, 1, "hi".toList⟩]), fun _ => none, [], [], []⟩

/-- The single segment used to instantiate the title-truncation theorem at a
concrete point: its text has seven words. -/
def sevenWordSegment : Segment :=
  ⟨0, 10, "a b c d e f g".toList⟩

/-- The chapter that `generate_chapters [sevenWordSegment] 8` produces. -/
def sevenWordChapter : Chapter :=
  ⟨0, 10, "a b c d e f...".toList, "a b c d e f g".toList⟩

/-! ## Helper lemmas -/

/-- Floor of a rational divided by 60 is integer division of its floor. -/
theorem floor_div_sixty (s : ℚ) : ⌊s / 60⌋ = ⌊s⌋ / 60 := by
  have hz : (60 : ℤ) * (⌊s⌋ / 60) + ⌊s⌋ % 60 = ⌊s⌋ := Int.ediv_add_emod ⌊s⌋ 60
  have hr0 : (0:ℤ) ≤ ⌊s⌋ % 60 := Int.emod_nonneg ⌊s⌋ (by norm_num)
  have hr1 : ⌊s⌋ % 60 < 60 := Int.emod_lt_of_pos ⌊s⌋ (by norm_num)
  have hle : (⌊s⌋ : ℚ) ≤ s := Int.floor_le s
  have hlt : s < ⌊s⌋ + 1 := Int.lt_floor_add_one s
  have hzq : (60 : ℚ) * ((⌊s⌋ / 60 : ℤ) : ℚ) + ((⌊s⌋ % 60 : ℤ) : ℚ) = (⌊s⌋ : ℚ) := by
    exact_mod_cast congrArg (fun z : ℤ => (z : ℚ)) hz
  have hr0q : (0:ℚ) ≤ ((⌊s⌋ % 60 : ℤ) : ℚ) := by exact_mod_cast hr0
  have hr1q : ((⌊s⌋ % 60 : ℤ) : ℚ) + 1 ≤ 60 := by
    have h : ⌊s⌋ % 60 + 1 ≤ 60 := hr1
    exact_mod_cast h
  rw [Int.floor_eq_iff]
  constructor
  · rw [le_div_iff₀ (by norm_num : (0:ℚ) < 60)]
    linarith
  · rw [div_lt_iff₀ (by norm_num : (0:ℚ) < 60)]
    linarith

/-- Floor of the Python modulo by 60 is the modulo of the floor. -/
theorem floor_pymod_sixty (s : ℚ) : ⌊pymod s 60⌋ = ⌊s⌋ % 60 := by
  unfold pymod
  rw [show (60:ℚ) * ⌊s / 60⌋ = ((60 * ⌊s / 60⌋ : ℤ) : ℚ) by push_cast; ring]
  rw [Int.floor_sub_int, floor_div_sixty, Int.emod_def]

/-- The chapter loop emits at least one chapter on a non-empty segment
list, because the final segment always closes the running chapter. -/
theorem chaptersLoop_ne_nil (dur : ℚ) (N : ℕ) :
    ∀ (segs : List Segment), segs ≠ [] → ∀ (cur : ℚ) (buf : List Char) (e : ℕ),
      chaptersLoop dur N segs cur buf e ≠ [] := by
  intro segs
  induction segs with
  | nil => intro h; exact absurd rfl h
  | cons s rest ih =>
    intro _ cur buf e
    simp only [chaptersLoop]
    by_cases h : (cur + dur ≤ s.end_ ∧ e < N - 1) ∨ rest = []
    · rw [if_pos h]
      exact List.cons_ne_nil _ _
    · rw [if_neg h]
      have hrest : rest ≠ [] := fun hr => h (Or.inr hr)
      exact ih hrest cur _ e

/-- Every close of a chapter before the final segment requires strictly
fewer than N - 1 chapters emitted, so the loop emits at most
N - 1 - e + 1 chapters. -/
theorem chaptersLoop_length_le (dur : ℚ) (N : ℕ) :
    ∀ (segs : List Segment) (cur : ℚ) (buf : List Char) (e : ℕ),
      (chaptersLoop dur N segs cur buf e).length ≤ N - 1 - e + 1 := by
  intro segs
  induction segs with
  | nil => intro cur buf e; simp [chaptersLoop]
  | cons s rest ih =>
    intro cur buf e
    simp only [chaptersLoop]
    by_cases h : (cur + dur ≤ s.end_ ∧ e < N - 1) ∨ rest = []
    · rw [if_pos h]
      rcases h with ⟨_, he⟩ | hrest
      · have hlen : (chaptersLoop dur N rest s.end_ [] (e + 1)).length ≤ N - 1 - (e + 1) + 1 :=
          ih s.end_ [] (e + 1)
        simp only [List.length_cons]
        omega
      · subst hrest
        simp [chaptersLoop]
    · rw [if_neg h]
      exact ih cur _ e

/-- The first chapter the loop emits starts at the current chapter start. -/
theorem chaptersLoop_head_start (dur : ℚ) (N : ℕ) :
    ∀ (segs : List Segment), segs ≠ [] → ∀ (cur : ℚ) (buf : List Char) (e : ℕ),
      (chaptersLoop dur N segs cur buf e).head?.map Chapter.start_time = some cur := by
  intro segs
  induction segs with
  | nil => intro h; exact absurd rfl h
  | cons s rest ih =>
    intro _ cur buf e
    simp only [chaptersLoop]
    by_cases h : (cur + dur ≤ s.end_ ∧ e < N - 1) ∨ rest = []
    · rw [if_pos h]
      rfl
    · rw [if_neg h]
      have hrest : rest ≠ [] := fun hr => h (Or.inr hr)
      exact ih hrest cur _ e

/-- Dropping the head of a list of length at least two keeps the last
element. -/
theorem getLast?_cons_of_ne_nil {α : Type} (a : α) {l : List α} (h : l ≠ []) :
    (a :: l).getLast? = l.getLast? := by
  obtain ⟨x, xs, rfl⟩ := List.exists_cons_of_ne_nil h
  exact List.getLast?_cons_cons

/-- Adjacent chapters emitted by the loop share their boundary (the end
time of each chapter is the start time of the next), and the final emitted
chapter ends at the end of the final segment. -/
theorem chaptersLoop_chain_getLast (dur : ℚ) (N : ℕ) :
    ∀ (segs : List Segment) (cur : ℚ) (buf : List Char) (e : ℕ),
      List.Chain' (fun a b => a.end_time = b.start_time)
        (chaptersLoop dur N segs cur buf e) ∧
      (chaptersLoop dur N segs cur buf e).getLast?.map Chapter.end_time =
        segs.getLast?.map Segment.end_ := by
  intro segs
  induction segs with
  | nil => intro cur buf e; simp [chaptersLoop]
  | cons s rest ih =>
    intro cur buf e
    simp only [chaptersLoop]
    by_cases h : (cur + dur ≤ s.end_ ∧ e < N - 1) ∨ rest = []
    · rw [if_pos h]
      cases rest with
      | nil =>
        simp [chaptersLoop]
      | cons r rs =>
        have hne : chaptersLoop dur N (r :: rs) s.end_ [] (e + 1) ≠ [] :=
          chaptersLoop_ne_nil dur N (r :: rs) (List.cons_ne_nil r rs) s.end_ [] (e + 1)
        have hhead := chaptersLoop_head_start dur N (r :: rs) (List.cons_ne_nil r rs)
          s.end_ [] (e + 1)
        have hih := ih s.end_ [] (e + 1)
        constructor
        · rw [List.chain'_cons']
          refine ⟨?_, hih.1⟩
          intro y hy
          have : (chaptersLoop dur N (r :: rs) s.end_ [] (e + 1)).head?.map
              Chapter.start_time = some s.end_ := hhead
          cases hh : (chaptersLoop dur N (r :: rs) s.end_ [] (e + 1)).head? with
          | none => rw [hh] at hy; exact absurd hy (by simp)
          | some z =>
            rw [hh] at hy this
            have hz : z.start_time = s.end_ := by simpa using this
            have hyz : z = y := by simpa using hy
            subst hyz
            rw [hz]
        · rw [getLast?_cons_of_ne_nil _ hne, hih.2,
            getLast?_cons_of_ne_nil s (List.cons_ne_nil r rs)]
    · rw [if_neg h]
      have hrest : rest ≠ [] := fun hr => h (Or.inr hr)
      have hih := ih cur (buf ++ s.text ++ [' ']) e
      refine ⟨hih.1, ?_⟩
      rw [hih.2, getLast?_cons_of_ne_nil s hrest]

/-- Every chapter the loop emits carries a title and text computed from
the same accumulated buffer by the source formulas. -/
theorem chaptersLoop_shape (dur : ℚ) (N : ℕ) :
    ∀ (segs : List Segment) (cur : ℚ) (buf : List Char) (e : ℕ) (c : Chapter),
      c ∈ chaptersLoop dur N segs cur buf e →
      ∃ b : List Char, c.title = mkTitle b ∧ c.text = pystrip b := by
  intro segs
  induction segs with
  | nil => intro cur buf e c hc; simp [chaptersLoop] at hc
  | cons s rest ih =>
    intro cur buf e c hc
    simp only [chaptersLoop] at hc
    by_cases h : (cur + dur ≤ s.end_ ∧ e < N - 1) ∨ rest = []
    · rw [if_pos h] at hc
      rcases List.mem_cons.mp hc with hceq | hmem
      · exact ⟨buf ++ s.text ++ [' '], by rw [hceq], by rw [hceq]⟩
      · exact ih s.end_ [] (e + 1) c hmem
    · rw [if_neg h] at hc
      exact ih cur (buf ++ s.text ++ [' ']) e c hc

/-- The loop partitions its segments into the contiguous non-empty runs
whose buffers (each segment text followed by one space, concatenated and
stripped) become the chapter texts; the pending buffer is prepended to the
first run. -/
theorem chaptersLoop_texts (dur : ℚ) (N : ℕ) :
    ∀ (segs : List Segment), segs ≠ [] → ∀ (cur : ℚ) (buf : List Char) (e : ℕ),
      ∃ (b : List Segment) (blocks : List (List Segment)),
        segs = b ++ blocks.flatten ∧ b ≠ [] ∧ (∀ bl ∈ blocks, bl ≠ []) ∧
        (chaptersLoop dur N segs cur buf e).map Chapter.text =
          pystrip (buf ++ bufOf b) :: blocks.map (fun bl => pystrip (bufOf bl)) := by
  intro segs
  induction segs with
  | nil => intro h; exact absurd rfl h
  | cons s rest ih =>
    intro _ cur buf e
    simp only [chaptersLoop]
    by_cases h : (cur + dur ≤ s.end_ ∧ e < N - 1) ∨ rest = []
    · rw [if_pos h]
      cases rest with
      | nil =>
        refine ⟨[s], [], by simp, List.cons_ne_nil s [], by simp, ?_⟩
        simp [chaptersLoop, bufOf, List.append_assoc]
      | cons r rs =>
        obtain ⟨b, blocks, hsplit, hbne, hblne, hmap⟩ :=
          ih (List.cons_ne_nil r rs) s.end_ [] (e + 1)
        refine ⟨[s], b :: blocks, ?_, List.cons_ne_nil s [], ?_, ?_⟩
        · simpa using hsplit
        · intro bl hbl
          rcases List.mem_cons.mp hbl with rfl | hmem
          · exact hbne
          · exact hblne bl hmem
        · simp only [List.map_cons, hmap]
          simp [bufOf, List.append_assoc]
    · rw [if_neg h]
      have hrest : rest ≠ [] := fun hr => h (Or.inr hr)
      obtain ⟨b, blocks, hsplit, hbne, hblne, hmap⟩ :=
        ih hrest cur (buf ++ s.text ++ [' ']) e
      refine ⟨s :: b, blocks, by simp [hsplit], List.cons_ne_nil s b, hblne, ?_⟩
      rw [hmap]
      simp [bufOf, List.append_assoc]

/-! ## Claims -/

/-- Claim C1: for every non-empty ordered segment sequence and every
maximum chapter count of at least 1, generate_chapters returns between 1
and N chapters that partition the range from 0 to the end of the last
segment with no gaps or overlaps: the first chapter starts at 0, the end
time of every chapter equals the start time of the next, and the last
chapter ends at the end of the last segment. -/
theorem generate_chapters_partition (segments : List Segment) (N : ℕ)
    (hne : segments ≠ []) (hN : 1 ≤ N) (hord : SegsOrdered segments) :
    1 ≤ (generate_chapters segments N).length ∧
    (generate_chapters segments N).length ≤ N ∧
    (generate_chapters segments N).head?.map Chapter.start_time = some 0 ∧
    List.Chain' (fun a b => a.end_time = b.start_time) (generate_chapters segments N) ∧
    (generate_chapters segments N).getLast?.map Chapter.end_time =
      segments.getLast?.map Segment.end_ := by
  match segments, hne with
  | seg :: rest, _ =>
    simp only [generate_chapters]
    refine ⟨?_, ?_, ?_, ?_, ?_⟩
    · exact List.length_pos.mpr
        (chaptersLoop_ne_nil _ N (seg :: rest) (List.cons_ne_nil seg rest) 0 [] 0)
    · have := chaptersLoop_length_le
        ((((seg :: rest).getLast (List.cons_ne_nil seg rest)).end_) / (N : ℚ)) N
        (seg :: rest) 0 [] 0
      omega
    · exact chaptersLoop_head_start _ N (seg :: rest) (List.cons_ne_nil seg rest) 0 [] 0
    · exact (chaptersLoop_chain_getLast _ N (seg :: rest) 0 [] 0).1
    · exact (chaptersLoop_chain_getLast _ N (seg :: rest) 0 [] 0).2

/-- Witness for C1 at the single segment spanning 0 to 1 with one-word
text and maximum chapter count 1. -/
theorem generate_chapters_partition_witness :
    (([⟨0, 1, "a".toList⟩] : List Segment) ≠ [] ∧ 1 ≤ 1 ∧
      SegsOrdered [⟨0, 1, "a".toList⟩]) ∧
    (1 ≤ (generate_chapters [⟨0, 1, "a".toList⟩] 1).length ∧
     (generate_chapters [⟨0, 1, "a".toList⟩] 1).length ≤ 1 ∧
     (generate_chapters [⟨0, 1, "a".toList⟩] 1).head?.map Chapter.start_time = some 0 ∧
     List.Chain' (fun a b => a.end_time = b.start_time)
       (generate_chapters [⟨0, 1, "a".toList⟩] 1) ∧
     (generate_chapters [⟨0, 1, "a".toList⟩] 1).getLast?.map Chapter.end_time =
       ([⟨0, 1, "a".toList⟩] : List Segment).getLast?.map Segment.end_) :=
  ⟨⟨by simp, le_refl 1, by simp [SegsOrdered]⟩,
    generate_chapters_partition [⟨0, 1, "a".toList⟩] 1 (by simp) (le_refl 1)
      (by simp [SegsOrdered])⟩

/-- Claim C2 (counterexample): on a single segment whose text has exactly
six words, the produced chapter has a text of six words (hence at most
six) and a title that does end in the three-dot ellipsis, contradicting
the claim that a chapter with six or fewer words has no ellipsis. -/
theorem generate_chapters_title_six_words_counterexample :
    generate_chapters [⟨0, 10, "one two three four five six".toList⟩] 8 =
      [⟨0, 10, "one two three four five six...".toList,
        "one two three four five six".toList⟩] ∧
    (pysplit "one two three four five six".toList).length ≤ 6 ∧
    "...".toList <:+ "one two three four five six...".toList := by
  refine ⟨?_, by decide, by decide⟩
  simp only [generate_chapters, chaptersLoop]
  simp
  decide

/-- Claim C2 (amended): for every chapter produced by generate_chapters,
if the accumulated text of the chapter has six or more
whitespace-separated words then its title ends in the three-dot ellipsis
(the source appends the ellipsis already at exactly six words); if the
accumulated text has five or fewer words then the title is exactly those
words joined by single spaces, with no ellipsis appended. -/
theorem generate_chapters_title_truncation (segments : List Segment) (N : ℕ)
    (c : Chapter) (hc : c ∈ generate_chapters segments N) :
    (6 ≤ (pysplit c.text).length → "...".toList <:+ c.title) ∧
    ((pysplit c.text).length ≤ 5 →
      c.title = List.intercalate [' '] (pysplit c.text)) := by
  have hshape : ∃ b : List Char, c.title = mkTitle b ∧ c.text = pystrip b := by
    match segments, hc with
    | seg :: rest, hc =>
      simp only [generate_chapters] at hc
      exact chaptersLoop_shape _ N (seg :: rest) 0 [] 0 c hc
  obtain ⟨b, htitle, htext⟩ := hshape
  have hws : (pysplit (pystrip b)).take 6 = (pysplit c.text).take 6 := by rw [htext]
  constructor
  · intro h6
    rw [htitle]
    simp only [mkTitle]
    rw [hws]
    have hlen : ((pysplit c.text).take 6).length = 6 := by
      rw [List.length_take]
      omega
    rw [if_pos hlen]
    exact List.suffix_append _ _
  · intro h5
    rw [htitle]
    simp only [mkTitle]
    rw [hws]
    have htake : (pysplit c.text).take 6 = pysplit c.text :=
      List.take_of_length_le (by omega)
    rw [htake]
    have hlen : (pysplit c.text).length ≠ 6 := by omega
    rw [if_neg hlen, List.append_nil]

/-- Witness for the amended C2 at a single segment with seven words of
text. -/
theorem generate_chapters_title_truncation_witness :
    sevenWordChapter ∈ generate_chapters [sevenWordSegment] 8 ∧
    ((6 ≤ (pysplit sevenWordChapter.text).length →
        "...".toList <:+ sevenWordChapter.title) ∧
     ((pysplit sevenWordChapter.text).length ≤ 5 →
        sevenWordChapter.title = List.intercalate [' '] (pysplit sevenWordChapter.text))) := by
  have hc : sevenWordChapter ∈ generate_chapters [sevenWordSegment] 8 := by
    simp only [sevenWordChapter, sevenWordSegment, generate_chapters, chaptersLoop]
    simp
    decide
  exact ⟨hc, generate_chapters_title_truncation [sevenWordSegment] 8 sevenWordChapter hc⟩

/-- Claim C3 (counterexample): on the three segments of the scenario with
maximum chapter count 8, generate_chapters does not produce one chapter
spanning the whole range; the boundary check fires before the final
segment. -/
theorem three_segment_one_chapter_counterexample :
    (generate_chapters [⟨0, 10, "hello".toList⟩, ⟨10, 20, "world today".toList⟩,
        ⟨20, 30, "final segment text".toList⟩] 8).length ≠ 1 := by
  norm_num [generate_chapters, chaptersLoop, List.getLast]

/-- Claim C3 (amended): on the three segments of the scenario with maximum
chapter count 8, the chapter duration is 30 / 8 = 3.75, the boundary check
fires at each of the first two segments (each segment end exceeds the
current chapter start plus 3.75), and generate_chapters produces exactly
three chapters, one per segment, spanning 0 to 10, 10 to 20 and 20 to 30. -/
theorem three_segment_scenario_eval :
    generate_chapters [⟨0, 10, "hello".toList⟩, ⟨10, 20, "world today".toList⟩,
        ⟨20, 30, "final segment text".toList⟩] 8 =
      [⟨0, 10, "hello".toList, "hello".toList⟩,
       ⟨10, 20, "world today".toList, "world today".toList⟩,
       ⟨20, 30, "final segment text".toList, "final segment text".toList⟩] := by
  norm_num [generate_chapters, chaptersLoop, List.getLast]
  decide

/-- Claim C4: for every non-negative number of seconds, format_timestamp
produces the two-zero-padded string of minutes (the floor of seconds over
60), a colon, and the two-zero-padded value of the floor of seconds modulo
60, exactly as the spec formula states; in particular the spec values at
0, 65 and 3600 hold, the last having no hour component. -/
theorem format_timestamp_matches_spec :
    (∀ s : ℚ, 0 ≤ s → format_timestamp s = format_timestamp_fromSpec s) ∧
    format_timestamp 0 = "00:00".toList ∧
    format_timestamp 65 = "01:05".toList ∧
    format_timestamp 3600 = "60:00".toList := by
  have huniv : ∀ s : ℚ, 0 ≤ s → format_timestamp s = format_timestamp_fromSpec s := by
    intro s _
    simp only [format_timestamp, format_timestamp_fromSpec]
    rw [floor_pymod_sixty]
  have heval : ∀ s : ℚ, 0 ≤ s → format_timestamp s =
      pad02 (⌊s⌋ / 60) ++ ':' :: pad02 (⌊s⌋ % 60) := by
    intro s hs
    rw [huniv s hs]
    simp only [format_timestamp_fromSpec]
    rw [floor_div_sixty]
  refine ⟨huniv, ?_, ?_, ?_⟩
  · rw [heval 0 (le_refl 0)]
    norm_num
    decide
  · rw [heval 65 (by norm_num)]
    norm_num
    decide
  · rw [heval 3600 (by norm_num)]
    norm_num
    decide

/-- Witness for C4 at s = 0. -/
theorem format_timestamp_matches_spec_witness :
    (0:ℚ) ≤ 0 ∧ format_timestamp 0 = format_timestamp_fromSpec 0 :=
  ⟨le_refl 0, format_timestamp_matches_spec.1 0 (le_refl 0)⟩

/-- Claim C5: generate_chapters on the empty segment list returns the
empty chapter list for every maximum chapter count, without error (the
guard precedes the division, so even a zero maximum is safe). -/
theorem generate_chapters_empty (max_chapters : ℕ) :
    generate_chapters [] max_chapters = [] := rfl

/-- Claim C6: when the orchestrator is given a path that does not exist in
the filesystem, it returns the failure value and leaves the filesystem
unchanged: no output file is created. -/
theorem process_audio_missing_file (env : PipelineEnv) (fs : FS)
    (audio_path : List Char) (h : audio_path ∉ fsPaths fs) :
    process_audio env fs audio_path = (none, fs) := by
  simp only [process_audio]
  rw [if_neg h]

/-- Witness for C6 at an empty filesystem. -/
theorem process_audio_missing_file_witness :
    ("missing.mp3".toList ∉ fsPaths []) ∧
    process_audio stubEnvFail [] "missing.mp3".toList = (none, []) :=
  ⟨by simp [fsPaths], process_audio_missing_file stubEnvFail [] "missing.mp3".toList
    (by simp [fsPaths])⟩

/-- Claim C7: when the summarization collaborator fails, generate_summary
returns the fixed fallback string instead of propagating the error, and
the orchestrator on an existing file whose transcription succeeds still
returns a report path. -/
theorem generate_summary_failure_fallback (env : PipelineEnv) (fs : FS)
    (audio_path transcript : List Char) (segments : List Segment)
    (hllm : env.llm (summaryPrompt transcript) = none)
    (hexists : audio_path ∈ fsPaths fs)
    (htr : env.transcribe audio_path = some (transcript, segments)) :
    generate_summary env transcript = fallbackSummary ∧
    (process_audio env fs audio_path).1.isSome = true := by
  constructor
  · simp only [generate_summary]
    rw [hllm]
  · simp only [process_audio]
    rw [if_pos hexists, htr]
    rfl

/-- Witness for C7 with a stub transcriber that succeeds and a stub
summarizer that fails. -/
theorem generate_summary_failure_fallback_witness :
    (stubEnvHalf.llm (summaryPrompt "hi".toList) = none ∧
     "a.mp3".toList ∈ fsPaths [("a.mp3".toList, [])] ∧
     stubEnvHalf.transcribe "a.mp3".toList = some ("hi".toList, [⟨0, 1, "hi".toList⟩])) ∧
    (generate_summary stubEnvHalf "hi".toList = fallbackSummary ∧
     (process_audio stubEnvHalf [("a.mp3".toList, [])] "a.mp3".toList).1.isSome = true) :=
  ⟨⟨rfl, by simp [fsPaths], rfl⟩,
    generate_summary_failure_fallback stubEnvHalf [("a.mp3".toList, [])]
      "a.mp3".toList "hi".toList [⟨0, 1, "hi".toList⟩] rfl (by simp [fsPaths]) rfl⟩

/-- Claim C8: the output of create_markdown_report does not depend on its
transcript argument; for a fixed summary, chapter list, filename and
generation time, any two transcripts yield the identical report, the
transcript body being rebuilt from the chapter texts alone. -/
theorem create_markdown_report_transcript_irrelevant
    (t₁ t₂ summary : List Char) (chapters : List Chapter)
    (audio_filename timestamp : List Char) :
    create_markdown_report t₁ summary chapters audio_filename timestamp =
      create_markdown_report t₂ summary chapters audio_filename timestamp := rfl

/-- Claim C9: generate_chapters loses and duplicates no text: the segment
list splits into contiguous non-empty runs, one per chapter in order, and
each chapter text is exactly the texts of its run joined with single-space
separators and stripped of leading and trailing whitespace. -/
theorem generate_chapters_text_partition (segments : List Segment) (N : ℕ)
    (hne : segments ≠ []) :
    ∃ blocks : List (List Segment),
      blocks.flatten = segments ∧ (∀ bl ∈ blocks, bl ≠ []) ∧
      (generate_chapters segments N).map Chapter.text =
        blocks.map (fun bl => pystrip (bufOf bl)) := by
  match segments, hne with
  | seg :: rest, _ =>
    simp only [generate_chapters]
    obtain ⟨b, blocks, hsplit, hbne, hblne, hmap⟩ :=
      chaptersLoop_texts _ N (seg :: rest) (List.cons_ne_nil seg rest) 0 [] 0
    refine ⟨b :: blocks, by simp [hsplit.symm], ?_, ?_⟩
    · intro bl hbl
      rcases List.mem_cons.mp hbl with rfl | hmem
      · exact hbne
      · exact hblne bl hmem
    · rw [hmap]
      simp

/-- Witness for C9 at a single one-word segment. -/
theorem generate_chapters_text_partition_witness :
    (([⟨0, 1, "a".toList⟩] : List Segment) ≠ []) ∧
    (∃ blocks : List (List Segment),
      blocks.flatten = [⟨0, 1, "a".toList⟩] ∧ (∀ bl ∈ blocks, bl ≠ []) ∧
      (generate_chapters [⟨0, 1, "a".toList⟩] 8).map Chapter.text =
        blocks.map (fun bl => pystrip (bufOf bl))) :=
  ⟨by simp, generate_chapters_text_partition [⟨0, 1, "a".toList⟩] 8 (by simp)⟩

/-- Claim C10: the UI handler given no uploaded file returns the triple of
no path, the upload-error message and the empty report, without touching
the filesystem and independently of the pipeline environment. -/
theorem process_audio_file_none_input (env : PipelineEnv) (fs : FS) :
    process_audio_file env fs none = ((none, uploadErrorMsg, []), fs) := rfl
